import Mathlib

/-!
Verification of the clip-extraction orchestration engine of the video-cutter
repository (src/src/video_processor.py and src/src/gui.py) against its
natural-language specification.

Shallow-embedding conventions:
* wall-clock timestamps (Python datetime) and durations are rationals,
  measured in seconds; datetime subtraction and timedelta addition become
  rational subtraction/addition;
* Python float arithmetic is modelled by exact rational arithmetic (the
  claims at issue concern orderings and integer truncation that are exact
  for the inputs exhibited);
* Python int() truncation toward zero is pyInt, Python round() (banker's
  rounding, half to even) is pyRound;
* the external ffmpeg process of one attempt is abstracted by its observable
  outcome (RunOutcome) and by the newline-delimited progress lines it emits.
-/

/-- Video file information, mirroring the VideoInfo dataclass of
video_processor.py (path, start_time, duration, width, height, bitrate, fps).
Timestamps and durations are rationals in seconds. -/
structure VideoInfo where
  path : String
  start_time : ℚ
  duration : ℚ
  width : ℤ
  height : ℤ
  bitrate : ℤ
  fps : ℚ
deriving DecidableEq

/-- Video quality settings, mirroring the QualitySettings dataclass:
a display name and the ratio of the original bitrate. -/
structure QualitySettings where
  name : String
  bitrate_ratio : ℚ
deriving DecidableEq

/-- QualitySettings.high of the source: ratio 1.0. -/
def QualitySettings.high : QualitySettings := ⟨"高", 1⟩

/-- QualitySettings.medium of the source: ratio 0.5. -/
def QualitySettings.medium : QualitySettings := ⟨"中", 1 / 2⟩

/-- QualitySettings.low of the source: ratio 0.3 (the float literal 0.3 is
modelled by the rational 3/10). -/
def QualitySettings.low : QualitySettings := ⟨"低", 3 / 10⟩

/-- Global time offset settings, mirroring the OffsetSettings dataclass:
start_offset (positive = earlier), end_offset (positive = later), and the
minimum clip duration, all in seconds.  The comments of the source state
explicitly that negative values are legal (negative = later/earlier). -/
structure OffsetSettings where
  start_offset : ℚ
  end_offset : ℚ
  min_duration : ℚ
deriving DecidableEq

/-- OffsetSettings.default of the source. -/
def OffsetSettings.default : OffsetSettings := ⟨0, 0, 10⟩

/-- VideoProcessor.apply_time_offset: subtract start_offset from the start,
add end_offset to the end, then, if the resulting duration is below
min_duration, extend the adjusted end to adjusted_start + min_duration. -/
def apply_time_offset (clip_start clip_end : ℚ) (offset : OffsetSettings) :
    ℚ × ℚ :=
  let adjusted_start := clip_start - offset.start_offset
  let adjusted_end := clip_end + offset.end_offset
  let duration := adjusted_end - adjusted_start
  if duration < offset.min_duration then
    (adjusted_start, adjusted_start + offset.min_duration)
  else
    (adjusted_start, adjusted_end)

/-- Python sorted(videos, key=lambda v: v.start_time): a stable merge sort
on the start timestamp. -/
def sortVideos (videos : List VideoInfo) : List VideoInfo :=
  videos.mergeSort (fun a b => decide (a.start_time ≤ b.start_time))

/-- The loop body of VideoProcessor.find_video_for_clip over the sorted
list: for each video compute its effective coverage end (for unknown
duration ≤ 0 the next video's start, or start + 25 hours for the last
video; otherwise start + duration) and return the first video with
video.start_time ≤ clip_start and clip_end ≤ video_end. -/
def findGo (clip_start clip_end : ℚ) : List VideoInfo → Option VideoInfo
  | [] => none
  | v :: rest =>
    let video_end :=
      if v.duration ≤ 0 then
        match rest with
        | v2 :: _ => v2.start_time
        | [] => v.start_time + 25 * 3600
      else
        v.start_time + v.duration
    if v.start_time ≤ clip_start ∧ clip_end ≤ video_end then
      some v
    else
      findGo clip_start clip_end rest

/-- VideoProcessor.find_video_for_clip: sort the catalog by start time and
scan for the first recording whose coverage window contains the clip. -/
def find_video_for_clip (videos : List VideoInfo) (clip_start clip_end : ℚ) :
    Option VideoInfo :=
  findGo clip_start clip_end (sortVideos videos)

/-- VideoProcessor.calculate_seek_time: seconds from the video's start to
the clip's start. -/
def calculate_seek_time (video : VideoInfo) (clip_start : ℚ) : ℚ :=
  clip_start - video.start_time

/-- Python int() applied to a (here: rational) number: truncation toward
zero. -/
def pyInt (q : ℚ) : ℤ :=
  if q < 0 then ⌈q⌉ else ⌊q⌋

/-- Python round() applied to a (here: rational) number: rounding half to
even. -/
def pyRound (q : ℚ) : ℤ :=
  let f := ⌊q⌋
  if q - f < 1 / 2 then f
  else if 1 / 2 < q - f then f + 1
  else if f % 2 = 0 then f else f + 1

/-- The encoder parameters VideoProcessor._run_ffmpeg_once derives from the
task and quality settings before building the ffmpeg command line: the seek
offset, the requested duration, and the output bitrate
int(video.bitrate * quality.bitrate_ratio). -/
structure FfmpegParams where
  seek_time : ℚ
  duration : ℚ
  output_bitrate : ℤ
deriving DecidableEq

/-- The parameter computation of VideoProcessor._run_ffmpeg_once (lines
249-254 of video_processor.py). -/
def run_ffmpeg_once_params (video : VideoInfo) (clip_start clip_end : ℚ) :
    QualitySettings → FfmpegParams
  | ⟨_, r⟩ =>
    { seek_time := calculate_seek_time video clip_start
      duration := clip_end - clip_start
      output_bitrate := pyInt ((video.bitrate : ℚ) * r) }

/-- A Python string, modelled as its sequence of code points. -/
abbrev PyStr := List Char

/-- One ASCII whitespace character in the sense of Python str.strip() /
int() (the progress lines ffmpeg emits are ASCII). -/
def isPySpace (c : Char) : Bool :=
  c == ' ' || c == '\t' || c == '\n' || c == '\x0b' || c == '\x0c' || c == '\r'

/-- Python s.startswith(pre). -/
def pyStartsWith (s pre : PyStr) : Bool :=
  pre.isPrefixOf s

/-- Python s.split(sep) for a one-character separator: split at every
occurrence of sep, keeping empty pieces. -/
def pySplit (sep : Char) : PyStr → List PyStr
  | [] => [[]]
  | c :: rest =>
    if c = sep then [] :: pySplit sep rest
    else
      match pySplit sep rest with
      | g :: gs => (c :: g) :: gs
      | [] => [[c]]

/-- Accumulate a decimal digit string in the sense of Python int(): after
the first digit, further digits may be separated by single underscores. -/
def pyDigitsGo (acc : ℕ) : List Char → Option ℕ
  | [] => some acc
  | '_' :: c :: rest =>
    if c.isDigit then pyDigitsGo (acc * 10 + (c.toNat - 48)) rest else none
  | c :: rest =>
    if c.isDigit then pyDigitsGo (acc * 10 + (c.toNat - 48)) rest else none

/-- A nonempty decimal digit string in the sense of Python int(). -/
def pyDigits : List Char → Option ℕ
  | [] => none
  | c :: rest =>
    if c.isDigit then pyDigitsGo (c.toNat - 48) rest else none

/-- Python int(s) for a decimal string: strip surrounding whitespace, allow
one optional sign, then a nonempty digit string (with single underscores
between digits); none models a ValueError. -/
def pyDecodeInt (s : PyStr) : Option ℤ :=
  let cs := (((s.dropWhile isPySpace).reverse.dropWhile
    isPySpace).reverse : PyStr)
  match cs with
  | '-' :: rest => (pyDigits rest).map (fun n => -(n : ℤ))
  | '+' :: rest => (pyDigits rest).map (fun n => (n : ℤ))
  | _ => (pyDigits cs).map (fun n => (n : ℤ))

/-- The string literal out_time_ms of read_progress, as code points. -/
def OUT_TIME_MS : PyStr :=
  ['o', 'u', 't', '_', 't', 'i', 'm', 'e', '_', 'm', 's']

/-- The mutable state the read_progress closure of _run_ffmpeg_once writes:
the local last_progress cell, the task.progress field, and (reported) the
values passed to the progress callback, in order. -/
structure ProgressState where
  last_progress : ℚ
  task_progress : ℚ
  reported : List ℚ
deriving DecidableEq

/-- Processing of one stdout line by read_progress (lines 328-342 of
video_processor.py): on a line starting with out_time_ms, decode
line.split('=')[1] as an integer number of microseconds and store
min(1.0, out_time_us / 1000000 / duration); a ValueError or
ZeroDivisionError is swallowed and leaves the state unchanged.  The result
none models the uncaught IndexError of split('=')[1] on a line without '='
(which ends the reader loop via its outer exception handler). -/
def processLine (duration : ℚ) (st : ProgressState) (line : PyStr) :
    Option ProgressState :=
  if pyStartsWith line OUT_TIME_MS then
    match pySplit '=' line with
    | _ :: payload :: _ =>
      match pyDecodeInt payload with
      | none => some st
      | some out_time_us =>
        if duration = 0 then some st
        else
          let progress := min 1 ((out_time_us : ℚ) / 1000000 / duration)
          some { last_progress := progress
                 task_progress := progress
                 reported := st.reported ++ [progress] }
    | _ => none
  else
    some st

/-- The reader loop of read_progress over a sequence of stdout lines,
stopping (with the state reached so far) when a line raises past the inner
try, as the code's outer handler does. -/
def runLines (duration : ℚ) (st : ProgressState) : List PyStr → ProgressState
  | [] => st
  | l :: ls =>
    match processLine duration st l with
    | some st2 => runLines duration st2 ls
    | none => st

/-- The reader state at the start of one encoder attempt: last_progress is
reinitialised to 0.0, task.progress keeps its previous value tp0, nothing
reported yet. -/
def initProgressState (tp0 : ℚ) : ProgressState := ⟨0, tp0, []⟩

/-- The elapsed-time values (microseconds) successfully decoded by the
reader from a sequence of lines, in order, stopping where the reader loop
stops. -/
def decodedValues : List PyStr → List ℤ
  | [] => []
  | l :: ls =>
    if pyStartsWith l OUT_TIME_MS then
      match pySplit '=' l with
      | _ :: payload :: _ =>
        match pyDecodeInt payload with
        | none => decodedValues ls
        | some v => v :: decodedValues ls
      | _ => []
    else
      decodedValues ls

/-- The observable outcome of one call of VideoProcessor._run_ffmpeg_once:
return True; return False with "STOPPED"; return False with "STALLED"; or
return False with any other error message (clean non-zero exit or a caught
exception). -/
inductive RunOutcome
  | success
  | stopped
  | stalled
  | failure (msg : String)
deriving DecidableEq

/-- The outcome of one cut_clip call: the boolean return value, the final
task.status and task.error, and how many _run_ffmpeg_once attempts ran. -/
structure CutResult where
  retval : Bool
  status : String
  error : Option String
  attemptsUsed : ℕ
deriving DecidableEq

/-- VideoProcessor.MAX_RETRIES. -/
def MAX_RETRIES : ℕ := 3

/-- The retry loop of VideoProcessor.cut_clip (lines 470-509): while
retry_count ≤ MAX_RETRIES, run one attempt; on success mark completed; on
STOPPED mark failed "Task stopped by user"; on STALLED increment
retry_count and retry (after a 1 s sleep, not modelled) while
retry_count ≤ MAX_RETRIES, else mark failed "Process stalled after 3
retries"; on any other error mark failed with that error.  The argument
attempts gives the outcome of the i-th attempt (0-based); idx counts the
attempts already run. -/
def cutClipGo (attempts : ℕ → RunOutcome) (idx rc : ℕ) : CutResult :=
  if rc ≤ MAX_RETRIES then
    match attempts idx with
    | RunOutcome.success => ⟨true, "completed", none, idx + 1⟩
    | RunOutcome.stopped => ⟨false, "failed", some "Task stopped by user", idx + 1⟩
    | RunOutcome.stalled =>
      if rc + 1 ≤ MAX_RETRIES then
        cutClipGo attempts (idx + 1) (rc + 1)
      else
        ⟨false, "failed", some "Process stalled after 3 retries", idx + 1⟩
    | RunOutcome.failure msg => ⟨false, "failed", some msg, idx + 1⟩
  else
    ⟨false, "failed", some "Max retries exceeded", idx⟩
termination_by MAX_RETRIES + 1 - rc
decreasing_by
  simp only [MAX_RETRIES] at *
  omega

/-- VideoProcessor.cut_clip: fail immediately with "No source video found"
when the task has no video_info, otherwise run the retry loop starting at
retry_count = 0. -/
def cut_clip (hasVideoInfo : Bool) (attempts : ℕ → RunOutcome) : CutResult :=
  if hasVideoInfo then cutClipGo attempts 0 0
  else ⟨false, "failed", some "No source video found", 0⟩

/-- The observable outcome of one VideoCutterWindow.update_progress_display
poll for the overall progress bar: no update (no start time yet, or no job
finished yet), an update of the bar to an integer percentage, or an
AttributeError escaping the method (the method has no exception handler). -/
inductive DisplayOutcome
  | noUpdate
  | updated (value : ℤ)
  | attrError
deriving DecidableEq

/-- The overall-progress computation of
VideoCutterWindow.update_progress_display (gui.py lines 602-618), modelled
with the worker attribute read included.  The method returns early without
start_time; with completed = completed_clips + failed_clips > 0 it
evaluates the condition self.worker and self.worker.current_task.  When the
worker reference is truthy (hasWorker, the case during every run), the read
worker.current_task is reached — but WorkerThread.__init__ (gui.py lines
30-43) sets only processor, tasks, quality, video_infos, _running and
_paused, and no assignment anywhere in the program adds a current_task
attribute to the worker — so the read raises AttributeError out of the
method and the bar is not touched.  Only with worker = None does the
short-circuit skip the read, leaving current_progress = 0 and setting the
bar to int(min(100, max(0, (completed − 1 + 0) / total_clips * 100))). -/
def update_progress_display (hasStartTime hasWorker : Bool)
    (completed_clips failed_clips total_clips : ℕ) : DisplayOutcome :=
  if hasStartTime then
    let completed : ℕ := completed_clips + failed_clips
    if 0 < completed then
      if hasWorker then
        DisplayOutcome.attrError
      else
        let current_progress : ℚ := 0
        let overall : ℚ :=
          ((completed : ℚ) - 1 + current_progress) / (total_clips : ℚ) * 100
        DisplayOutcome.updated (pyInt (min 100 (max 0 overall)))
    else
      DisplayOutcome.noUpdate
  else
    DisplayOutcome.noUpdate

/-- The effective coverage end the find_video_for_clip loop computes for
position i of the sorted catalog: for unknown duration (≤ 0) the next
video's start time, or start + 25 hours at the last position; otherwise
start + duration.  (Value at an out-of-range index is irrelevant; 0 is
returned.) -/
def video_end_at (l : List VideoInfo) (i : ℕ) : ℚ :=
  match l.get? i with
  | none => 0
  | some v =>
    if v.duration ≤ 0 then
      match l.get? (i + 1) with
      | some v2 => v2.start_time
      | none => v.start_time + 25 * 3600
    else
      v.start_time + v.duration

/-- The matching condition of the find_video_for_clip loop at position i of
the sorted catalog: the video at i exists, starts no later than the clip,
and its coverage end is no earlier than the clip's end. -/
def matches_at (l : List VideoInfo) (clip_start clip_end : ℚ) (i : ℕ) :
    Prop :=
  ∃ v, l.get? i = some v ∧ v.start_time ≤ clip_start ∧
    clip_end ≤ video_end_at l i

/-- The progress fraction read_progress derives from a decoded
elapsed-output-time value (microseconds): min(1, v / 1000000 / duration). -/
def progressOf (duration : ℚ) (v : ℤ) : ℚ :=
  min 1 ((v : ℚ) / 1000000 / duration)

/-- Modelled from the spec: the aggregation formula of the specification,
overall progress = (jobs fully finished + current job's fractional
progress) / total jobs, clamped to [0, 1].  Stated here only to be compared
with update_progress_display (comparison for claim C7). -/
def spec_overall (completed_clips failed_clips : ℕ) (current_progress : ℚ)
    (total_clips : ℕ) : ℚ :=
  min 1 (max 0
    ((((completed_clips + failed_clips : ℕ) : ℚ) + current_progress) /
      (total_clips : ℚ)))

/-- The bitrate multiplier of a quality profile (projection of
QualitySettings, under a projection function of its own). -/
def quality_multiplier : QualitySettings → ℚ
  | ⟨_, r⟩ => r

/-! Helper lemmas about the matcher scan. -/

/-- Coverage ends shift under cons. -/
lemma video_end_at_cons (a : VideoInfo) (l : List VideoInfo) (i : ℕ) :
    video_end_at (a :: l) (i + 1) = video_end_at l i := by
  simp [video_end_at]

/-- The matching condition shifts under cons. -/
lemma matches_at_cons {a : VideoInfo} {l : List VideoInfo} {cs ce : ℚ}
    {i : ℕ} : matches_at (a :: l) cs ce (i + 1) ↔ matches_at l cs ce i := by
  simp [matches_at, video_end_at_cons]

/-- The matching condition at the head of the list. -/
lemma matches_at_zero {a : VideoInfo} {l : List VideoInfo} {cs ce : ℚ} :
    matches_at (a :: l) cs ce 0 ↔
      a.start_time ≤ cs ∧ ce ≤ video_end_at (a :: l) 0 := by
  simp [matches_at]

/-- One unfolding of the scan, phrased with video_end_at. -/
lemma findGo_cons (cs ce : ℚ) (a : VideoInfo) (l : List VideoInfo) :
    findGo cs ce (a :: l) =
      if a.start_time ≤ cs ∧ ce ≤ video_end_at (a :: l) 0 then some a
      else findGo cs ce l := by
  cases l <;> simp [findGo, video_end_at]

/-- The scan returns exactly the video at the first matching position. -/
lemma findGo_eq_some_iff {cs ce : ℚ} {l : List VideoInfo} {v : VideoInfo} :
    findGo cs ce l = some v ↔
      ∃ i, l.get? i = some v ∧ matches_at l cs ce i ∧
        ∀ j < i, ¬ matches_at l cs ce j := by
  induction l with
  | nil => simp [findGo, matches_at]
  | cons a l ih =>
    rw [findGo_cons]
    by_cases h : a.start_time ≤ cs ∧ ce ≤ video_end_at (a :: l) 0
    · simp only [h, if_true]
      constructor
      · rintro h2
        refine ⟨0, by simp_all, matches_at_zero.mpr h, by omega⟩
      · rintro ⟨i, hget, hm, hmin⟩
        match i with
        | 0 => simpa using hget
        | j + 1 => exact absurd (matches_at_zero.mpr h) (hmin 0 (by omega))
    · simp only [h, if_false]
      rw [ih]
      constructor
      · rintro ⟨i, hget, hm, hmin⟩
        refine ⟨i + 1, by simpa using hget, matches_at_cons.mpr hm, ?_⟩
        intro j hj
        match j with
        | 0 => exact fun hc => h (matches_at_zero.mp hc)
        | k + 1 => exact fun hc => hmin k (by omega) (matches_at_cons.mp hc)
      · rintro ⟨i, hget, hm, hmin⟩
        match i with
        | 0 => exact absurd (matches_at_zero.mp hm) h
        | j + 1 =>
          refine ⟨j, by simpa using hget, matches_at_cons.mp hm, ?_⟩
          intro k hk hc
          exact hmin (k + 1) (by omega) (matches_at_cons.mpr hc)

/-- If some position matches, the scan succeeds. -/
lemma findGo_isSome {cs ce : ℚ} {l : List VideoInfo} {i : ℕ}
    (h : matches_at l cs ce i) : (findGo cs ce l).isSome := by
  induction l generalizing i with
  | nil => obtain ⟨v, hv, -⟩ := h; simp at hv
  | cons a l ih =>
    rw [findGo_cons]
    by_cases h0 : a.start_time ≤ cs ∧ ce ≤ video_end_at (a :: l) 0
    · simp [h0]
    · simp only [h0, if_false]
      match i with
      | 0 => exact absurd (matches_at_zero.mp h) h0
      | j + 1 => exact ih (matches_at_cons.mp h)

/-- The sorted catalog is pairwise strictly increasing in start time when
its adjacent elements are (start times pairwise distinct). -/
lemma chain_to_pairwise {l : List VideoInfo}
    (h : l.Chain' (fun a b => a.start_time < b.start_time)) :
    l.Pairwise (fun a b => a.start_time < b.start_time) := by
  haveI : IsTrans VideoInfo (fun a b => a.start_time < b.start_time) :=
    ⟨fun _ _ _ hab hbc => lt_trans hab hbc⟩
  exact List.chain'_iff_pairwise.mp h

/-- In a list with strictly increasing start times, an element occurs at
only one position. -/
lemma get_inj_of_strict {l : List VideoInfo} {i j : ℕ} {v : VideoInfo}
    (h : l.Pairwise (fun a b => a.start_time < b.start_time))
    (hi : l.get? i = some v) (hj : l.get? j = some v) : i = j := by
  have key : ∀ a b : ℕ, a < b → l.get? a = some v → l.get? b = some v → False := by
    intro a b hab ha hb
    rw [List.get?_eq_getElem?] at ha hb
    obtain ⟨ha2, hae⟩ := List.getElem?_eq_some_iff.mp ha
    obtain ⟨hb2, hbe⟩ := List.getElem?_eq_some_iff.mp hb
    have := List.pairwise_iff_getElem.mp h a b ha2 hb2 hab
    rw [hae, hbe] at this
    exact lt_irrefl _ this
  rcases lt_trichotomy i j with hij | hij | hij
  · exact absurd (key i j hij hi hj) (by simp)
  · exact hij
  · exact absurd (key j i hij hj hi) (by simp)

/-- C3 (amended): in a catalog whose recordings have pairwise distinct
start times, if the recording at position i of the sorted catalog has
unknown duration (≤ 0) and is immediately followed by v2, then the matcher
never returns that recording for a clip whose end is strictly greater than
v2's start (at end = v2.start exactly the half-open coverage window
[v1.start, v2.start) does contain the clip and v1 is returned, whence the
strict inequality). -/
theorem unknown_duration_fallback (videos : List VideoInfo) (cs ce : ℚ)
    (i : ℕ) (v1 v2 : VideoInfo)
    (hdistinct : (sortVideos videos).Chain'
      (fun a b => a.start_time < b.start_time))
    (h1 : (sortVideos videos).get? i = some v1)
    (h2 : (sortVideos videos).get? (i + 1) = some v2)
    (hdur : v1.duration ≤ 0) (hce : v2.start_time < ce) :
    find_video_for_clip videos cs ce ≠ some v1 := by
  intro hfind
  obtain ⟨j, hgj, hmj, -⟩ := findGo_eq_some_iff.mp hfind
  have hji : j = i := get_inj_of_strict (chain_to_pairwise hdistinct) hgj h1
  subst hji
  obtain ⟨w, hw, -, hce2⟩ := hmj
  have hvend : video_end_at (sortVideos videos) j = v2.start_time := by
    simp only [video_end_at, h1, h2]
    rw [if_pos hdur]
  rw [hvend] at hce2
  exact lt_irrefl _ (lt_of_lt_of_le hce hce2)

/-- C4: for every recording R of the catalog with known duration (> 0)
whose own window [R.start, R.start + R.duration) contains the clip range,
the matcher succeeds, and it returns the recording at the first matching
position of the start-sorted catalog (so when several coverage windows
contain the range, the earliest in start-ascending order wins). -/
theorem containment_first_match (videos : List VideoInfo) (R : VideoInfo)
    (s e : ℚ) (hmem : R ∈ videos) (hdur : 0 < R.duration)
    (h1 : R.start_time ≤ s) (h2 : e ≤ R.start_time + R.duration) :
    ∃ v i, find_video_for_clip videos s e = some v ∧
      (sortVideos videos).get? i = some v ∧
      matches_at (sortVideos videos) s e i ∧
      ∀ j < i, ¬ matches_at (sortVideos videos) s e j := by
  have hmem2 : R ∈ sortVideos videos :=
    (List.mergeSort_perm videos _).symm.subset hmem
  obtain ⟨k, hk⟩ := List.get_of_mem hmem2
  have hget : (sortVideos videos).get? (k : ℕ) = some R := by
    rw [List.get?_eq_getElem?, List.getElem?_eq_some_iff]
    exact ⟨k.2, by simpa using hk⟩
  have hm : matches_at (sortVideos videos) s e (k : ℕ) := by
    refine ⟨R, hget, h1, ?_⟩
    simp only [video_end_at, hget]
    rw [if_neg (not_le.mpr hdur)]
    exact h2
  have hsome : (findGo s e (sortVideos videos)).isSome := findGo_isSome hm
  obtain ⟨v, hv⟩ := Option.isSome_iff_exists.mp hsome
  obtain ⟨i, hgi, hmi, hmin⟩ := findGo_eq_some_iff.mp hv
  exact ⟨v, i, hv, hgi, hmi, hmin⟩

/-- C9: whenever the matcher returns a recording, that recording starts no
later than the clip, so the seek time handed to the encoder is
nonnegative. -/
theorem matched_video_seek_nonneg (videos : List VideoInfo) (cs ce : ℚ)
    (v : VideoInfo) (h : find_video_for_clip videos cs ce = some v) :
    v.start_time ≤ cs ∧ 0 ≤ calculate_seek_time v cs := by
  obtain ⟨i, hgi, ⟨w, hw, hle, -⟩, -⟩ := findGo_eq_some_iff.mp h
  rw [hgi, Option.some_inj] at hw
  subst hw
  exact ⟨hle, by rw [calculate_seek_time]; exact sub_nonneg.mpr hle⟩

/-- C3 counterexample: with a catalog of an unknown-duration recording at
start 0 followed by a recording starting at 100, a clip ending exactly at
100 (so end ≥ R2.start as the claim words it) is matched to the
unknown-duration recording, contradicting the claim as stated. -/
theorem unknown_duration_boundary_counterexample :
    (100 : ℚ) ≥ (VideoInfo.mk "b.mkv" 100 3600 1920 1080 1000000 30).start_time ∧
    find_video_for_clip
      [VideoInfo.mk "a.mkv" 0 0 1920 1080 1000000 30,
       VideoInfo.mk "b.mkv" 100 3600 1920 1080 1000000 30] 0 100 =
      some (VideoInfo.mk "a.mkv" 0 0 1920 1080 1000000 30) := by
  constructor
  · norm_num
  · rw [find_video_for_clip, sortVideos, List.mergeSort_of_sorted]
    · norm_num [findGo]
    · norm_num [List.Pairwise]

/-- C3 witness: the amended theorem applied to the same catalog and a clip
ending at 150 > 100: the unknown-duration recording is not returned. -/
theorem unknown_duration_fallback_witness :
    find_video_for_clip
      [VideoInfo.mk "a.mkv" 0 0 1920 1080 1000000 30,
       VideoInfo.mk "b.mkv" 100 3600 1920 1080 1000000 30] 0 150 ≠
      some (VideoInfo.mk "a.mkv" 0 0 1920 1080 1000000 30) := by
  have hs : sortVideos
      [VideoInfo.mk "a.mkv" 0 0 1920 1080 1000000 30,
       VideoInfo.mk "b.mkv" 100 3600 1920 1080 1000000 30] =
      [VideoInfo.mk "a.mkv" 0 0 1920 1080 1000000 30,
       VideoInfo.mk "b.mkv" 100 3600 1920 1080 1000000 30] := by
    rw [sortVideos, List.mergeSort_of_sorted]
    norm_num [List.Pairwise]
  exact unknown_duration_fallback _ 0 150 0
    (VideoInfo.mk "a.mkv" 0 0 1920 1080 1000000 30)
    (VideoInfo.mk "b.mkv" 100 3600 1920 1080 1000000 30)
    (by rw [hs]; norm_num [List.chain'_cons])
    (by rw [hs]; rfl) (by rw [hs]; rfl) (by norm_num) (by norm_num)

/-- C4 witness: the example scenario of the spec, a recording starting at
36000 s with duration 3600 s and the clip [36600, 37200): the matcher
returns it as the first match. -/
theorem containment_first_match_witness :
    ∃ v i, find_video_for_clip
        [VideoInfo.mk "v.mkv" 36000 3600 1920 1080 8000000 30] 36600 37200 =
        some v ∧
      (sortVideos
        [VideoInfo.mk "v.mkv" 36000 3600 1920 1080 8000000 30]).get? i =
        some v ∧
      matches_at (sortVideos
        [VideoInfo.mk "v.mkv" 36000 3600 1920 1080 8000000 30]) 36600 37200 i ∧
      ∀ j < i, ¬ matches_at (sortVideos
        [VideoInfo.mk "v.mkv" 36000 3600 1920 1080 8000000 30]) 36600 37200 j :=
  containment_first_match _ (VideoInfo.mk "v.mkv" 36000 3600 1920 1080 8000000 30)
    36600 37200 (by norm_num) (by norm_num) (by norm_num) (by norm_num)

/-- C9 witness: on that same scenario the matcher returns the recording and
the seek time 600 s is nonnegative. -/
theorem matched_video_seek_nonneg_witness :
    (VideoInfo.mk "v.mkv" 36000 3600 1920 1080 8000000 30).start_time ≤ 36600 ∧
    0 ≤ calculate_seek_time
      (VideoInfo.mk "v.mkv" 36000 3600 1920 1080 8000000 30) 36600 :=
  matched_video_seek_nonneg
    [VideoInfo.mk "v.mkv" 36000 3600 1920 1080 8000000 30] 36600 37200 _
    (by rw [find_video_for_clip, sortVideos, List.mergeSort_of_sorted]
        · norm_num [findGo]
        · norm_num [List.Pairwise])

/-- Truncation toward zero agrees with the floor on nonnegative numbers,
with the usual floor bounds. -/
lemma pyInt_nonneg_bounds {x : ℚ} (h : 0 ≤ x) :
    ((pyInt x : ℚ) ≤ x ∧ x < (pyInt x : ℚ) + 1) := by
  rw [pyInt, if_neg (not_lt.mpr h)]
  exact ⟨Int.floor_le x, Int.lt_floor_add_one x⟩

/-- C6 counterexample: a negative start leniency (-1), legal per the
source's comments (negative = later), moves the adjusted start to 1 for a
clip starting at 0, contradicting the claim's adjusted start ≤ original
start for every OffsetPolicy. -/
theorem offset_negative_counterexample :
    (apply_time_offset 0 1 (OffsetSettings.mk (-1) 0 0)).1 = 1 ∧
    ¬ ((apply_time_offset 0 1 (OffsetSettings.mk (-1) 0 0)).1 ≤ 0) := by
  norm_num [apply_time_offset]

/-- C6 (amended): for every clip range with end > start and every policy
with nonnegative start and end leniencies, the adjusted end is at least the
original end, the adjusted start is at most the original start, the
adjusted duration is at least min_duration, and the minimum-duration rule
never moves the start (the adjusted start always equals
start − start_offset) and only ever extends the end (the adjusted end is at
least end + end_offset). -/
theorem offset_monotonicity (s e : ℚ) (off : OffsetSettings) (hse : s < e)
    (h1 : 0 ≤ off.start_offset) (h2 : 0 ≤ off.end_offset) :
    e ≤ (apply_time_offset s e off).2 ∧
    (apply_time_offset s e off).1 ≤ s ∧
    off.min_duration ≤
      (apply_time_offset s e off).2 - (apply_time_offset s e off).1 ∧
    (apply_time_offset s e off).1 = s - off.start_offset ∧
    e + off.end_offset ≤ (apply_time_offset s e off).2 := by
  simp only [apply_time_offset]
  split_ifs with hd
  · dsimp only
    exact ⟨by linarith, by linarith, by simp, rfl, by linarith⟩
  · rw [not_lt] at hd
    dsimp only
    exact ⟨by linarith, by linarith, by linarith, rfl, le_refl _⟩

/-- C6 witness: the spec's scenario 3, OffsetPolicy(start = 5, end = 5,
min = 10) applied to the 10-second clip [36000, 36010). -/
theorem offset_monotonicity_witness :
    (36010 : ℚ) ≤ (apply_time_offset 36000 36010 (OffsetSettings.mk 5 5 10)).2 ∧
    (apply_time_offset 36000 36010 (OffsetSettings.mk 5 5 10)).1 ≤ 36000 ∧
    (OffsetSettings.mk (5 : ℚ) 5 10).min_duration ≤
      (apply_time_offset 36000 36010 (OffsetSettings.mk 5 5 10)).2 -
        (apply_time_offset 36000 36010 (OffsetSettings.mk 5 5 10)).1 ∧
    (apply_time_offset 36000 36010 (OffsetSettings.mk 5 5 10)).1 =
      36000 - (OffsetSettings.mk (5 : ℚ) 5 10).start_offset ∧
    36010 + (OffsetSettings.mk (5 : ℚ) 5 10).end_offset ≤
      (apply_time_offset 36000 36010 (OffsetSettings.mk 5 5 10)).2 :=
  offset_monotonicity 36000 36010 (OffsetSettings.mk 5 5 10)
    (by norm_num) (by norm_num) (by norm_num)

/-- C5 counterexample: source bitrate 3 with the medium profile (×0.5):
the code's int(3 × 0.5) is 1 while the claimed round(3 × 0.5) is 2. -/
theorem bitrate_round_counterexample :
    (run_ffmpeg_once_params (VideoInfo.mk "v.mkv" 0 3600 1920 1080 3 30) 0 60
      QualitySettings.medium).output_bitrate = 1 ∧
    pyRound (((VideoInfo.mk "v.mkv" 0 3600 1920 1080 3 30).bitrate : ℚ) *
      quality_multiplier QualitySettings.medium) = 2 ∧
    (1 : ℤ) ≠ 2 := by
  refine ⟨?_, ?_, by norm_num⟩
  · norm_num [run_ffmpeg_once_params, QualitySettings.medium, pyInt]
  · norm_num [pyRound, quality_multiplier, QualitySettings.medium]

/-- C5 (amended): for each of the three quality profiles and a nonnegative
source bitrate, the bitrate handed to the encoder is
int(bitrate × multiplier): the unique integer b with
b ≤ bitrate × multiplier < b + 1 (truncation toward zero, which on
nonnegative products is the floor), not the rounded value the claim
states. -/
theorem bitrate_truncation (video : VideoInfo) (cs ce : ℚ)
    (q : QualitySettings)
    (hq : q = QualitySettings.high ∨ q = QualitySettings.medium ∨
      q = QualitySettings.low)
    (hb : 0 ≤ video.bitrate) :
    ((run_ffmpeg_once_params video cs ce q).output_bitrate : ℚ) ≤
      (video.bitrate : ℚ) * quality_multiplier q ∧
    (video.bitrate : ℚ) * quality_multiplier q <
      ((run_ffmpeg_once_params video cs ce q).output_bitrate : ℚ) + 1 := by
  have hb2 : (0 : ℚ) ≤ (video.bitrate : ℚ) := by exact_mod_cast hb
  rcases hq with hq | hq | hq <;> subst hq <;>
    simp only [run_ffmpeg_once_params, quality_multiplier,
      QualitySettings.high, QualitySettings.medium, QualitySettings.low] <;>
    exact pyInt_nonneg_bounds (by positivity)

/-- C5 witness: the spec's scenario 4, source bitrate 1,000,000 b/s at the
low profile: the encoder bitrate is bracketed by 1,000,000 × 0.3. -/
theorem bitrate_truncation_witness :
    ((run_ffmpeg_once_params (VideoInfo.mk "v.mkv" 0 3600 1920 1080 1000000 30)
        0 60 QualitySettings.low).output_bitrate : ℚ) ≤
      ((1000000 : ℤ) : ℚ) * quality_multiplier QualitySettings.low ∧
    ((1000000 : ℤ) : ℚ) * quality_multiplier QualitySettings.low <
      ((run_ffmpeg_once_params (VideoInfo.mk "v.mkv" 0 3600 1920 1080 1000000 30)
        0 60 QualitySettings.low).output_bitrate : ℚ) + 1 :=
  bitrate_truncation (VideoInfo.mk "v.mkv" 0 3600 1920 1080 1000000 30) 0 60
    QualitySettings.low (Or.inr (Or.inr rfl)) (by norm_num)

/-- Any poll of the display after a job has finished, with the worker
reference present, ends in the AttributeError path: the bar is never
updated. -/
lemma update_display_raises (c f t : ℕ) (h : 0 < c + f) :
    update_progress_display true true c f t = DisplayOutcome.attrError := by
  simp [update_progress_display, h]

/-- C7 (code bug): with one job finished of two and the worker present (as
during every run), the poll raises AttributeError reading
worker.current_task — an attribute WorkerThread never defines — so the
overall display is never set to the claimed
clamp((finished + current progress) / total), which here demands 50
percent; and even the only non-raising path (worker = None, so current
progress stays 0) would display int((1 − 1 + 0) / 2 × 100) = 0,
subtracting one from the finished-job count the claim uses. -/
theorem overall_progress_attr_error :
    update_progress_display true true 1 0 2 = DisplayOutcome.attrError ∧
    spec_overall 1 0 0 2 * 100 = 50 ∧
    update_progress_display true false 1 0 2 = DisplayOutcome.updated 0 := by
  refine ⟨update_display_raises 1 0 2 (by norm_num), ?_, ?_⟩
  · norm_num [spec_overall]
  · norm_num [update_progress_display, pyInt]

/-- If every attempt up to the j-th from the current one stalls and the
budget is exactly exhausted by them, the loop fails with the stall
message after running all of them. -/
lemma cutClipGo_stalled_all (attempts : ℕ → RunOutcome) :
    ∀ j idx rc, rc + j = MAX_RETRIES →
      (∀ i ≤ j, attempts (idx + i) = RunOutcome.stalled) →
      cutClipGo attempts idx rc =
        ⟨false, "failed", some "Process stalled after 3 retries", idx + j + 1⟩ := by
  intro j
  induction j with
  | zero =>
    intro idx rc hrc hall
    have h0 : attempts idx = RunOutcome.stalled := by
      simpa using hall 0 (le_refl 0)
    rw [cutClipGo, if_pos (by omega : rc ≤ MAX_RETRIES), h0,
      if_neg (by omega : ¬ rc + 1 ≤ MAX_RETRIES)]
  | succ j ih =>
    intro idx rc hrc hall
    have h0 : attempts idx = RunOutcome.stalled := by
      simpa using hall 0 (by omega)
    rw [cutClipGo, if_pos (by omega : rc ≤ MAX_RETRIES), h0,
      if_pos (by omega : rc + 1 ≤ MAX_RETRIES)]
    have := ih (idx + 1) (rc + 1) (by omega)
      (fun i hi => by
        have := hall (i + 1) (by omega)
        simpa [Nat.add_assoc, Nat.add_comm 1 i] using this)
    rw [this, show idx + 1 + j + 1 = idx + (j + 1) + 1 from by omega]

/-- If the first k attempts from the current one stall within budget and
the next one succeeds, the loop completes after k + 1 further attempts. -/
lemma cutClipGo_success (attempts : ℕ → RunOutcome) :
    ∀ k idx rc, rc + k ≤ MAX_RETRIES →
      (∀ i < k, attempts (idx + i) = RunOutcome.stalled) →
      attempts (idx + k) = RunOutcome.success →
      cutClipGo attempts idx rc = ⟨true, "completed", none, idx + k + 1⟩ := by
  intro k
  induction k with
  | zero =>
    intro idx rc hrc hall hsucc
    rw [cutClipGo, if_pos (by omega : rc ≤ MAX_RETRIES)]
    simp only [Nat.add_zero] at hsucc
    rw [hsucc]
  | succ k ih =>
    intro idx rc hrc hall hsucc
    have h0 : attempts idx = RunOutcome.stalled := by
      simpa using hall 0 (by omega)
    rw [cutClipGo, if_pos (by omega : rc ≤ MAX_RETRIES), h0,
      if_pos (by omega : rc + 1 ≤ MAX_RETRIES)]
    have := ih (idx + 1) (rc + 1) (by omega)
      (fun i hi => by
        have := hall (i + 1) (by omega)
        simpa [Nat.add_assoc, Nat.add_comm 1 i] using this)
      (by
        have := hsucc
        simpa [Nat.add_assoc, Nat.add_comm 1 k] using this)
    rw [this, show idx + 1 + k + 1 = idx + (k + 1) + 1 from by omega]

/-- C1 (amended): if all attempts stall, the retry loop runs
MAX_RETRIES + 1 = 4 stalled attempts (the initial attempt plus 3 retries,
not 3 in total) and then marks the task failed with the exact reason
"Process stalled after 3 retries"; a success on any attempt after k ≤
MAX_RETRIES stalled ones ends the loop immediately with status completed;
a STOPPED or other-error first attempt is never retried (only the Stalled
classification is retried). -/
theorem cut_clip_stall_retry_bound (attempts : ℕ → RunOutcome) :
    ((∀ i < MAX_RETRIES + 1, attempts i = RunOutcome.stalled) →
      cut_clip true attempts =
        ⟨false, "failed", some "Process stalled after 3 retries",
          MAX_RETRIES + 1⟩) ∧
    (∀ k ≤ MAX_RETRIES, (∀ i < k, attempts i = RunOutcome.stalled) →
      attempts k = RunOutcome.success →
      cut_clip true attempts = ⟨true, "completed", none, k + 1⟩) ∧
    (attempts 0 = RunOutcome.stopped →
      (cut_clip true attempts).attemptsUsed = 1) ∧
    (∀ msg, attempts 0 = RunOutcome.failure msg →
      (cut_clip true attempts).attemptsUsed = 1 ∧
      (cut_clip true attempts).error = some msg) := by
  refine ⟨?_, ?_, ?_, ?_⟩
  · intro hall
    rw [cut_clip, if_pos rfl]
    have := cutClipGo_stalled_all attempts MAX_RETRIES 0 0 (by omega)
      (fun i hi => by simpa using hall i (by omega))
    simpa using this
  · intro k hk hall hsucc
    rw [cut_clip, if_pos rfl]
    have := cutClipGo_success attempts k 0 0 (by omega)
      (fun i hi => by simpa using hall i hi)
      (by simpa using hsucc)
    simpa using this
  · intro h0
    rw [cut_clip, if_pos rfl, cutClipGo,
      if_pos (by omega : 0 ≤ MAX_RETRIES), h0]
  · intro msg h0
    rw [cut_clip, if_pos rfl, cutClipGo,
      if_pos (by omega : 0 ≤ MAX_RETRIES), h0]
    exact ⟨rfl, rfl⟩

/-- C1 witness: the amended theorem instantiated on the everywhere-stalled
attempt stream: four stalled attempts happen, then failure with the code's
message. -/
theorem cut_clip_stall_retry_bound_witness :
    cut_clip true (fun _ => RunOutcome.stalled) =
      ⟨false, "failed", some "Process stalled after 3 retries",
        MAX_RETRIES + 1⟩ :=
  (cut_clip_stall_retry_bound (fun _ => RunOutcome.stalled)).1
    (fun _ _ => rfl)

/-- C1 counterexample: on the everywhere-stalled stream the loop uses 4
stalled attempts, not exactly 3 as the claim states, and the recorded
reason is "Process stalled after 3 retries", not "stalled after 3
retries". -/
theorem stall_retry_counterexample :
    (cut_clip true (fun _ => RunOutcome.stalled)).attemptsUsed = 4 ∧
    (4 : ℕ) ≠ 3 ∧
    (cut_clip true (fun _ => RunOutcome.stalled)).error ≠
      some "stalled after 3 retries" := by
  refine ⟨?_, by norm_num, ?_⟩ <;>
    simp [cut_clip, cutClipGo, MAX_RETRIES]

/-- The status/retval/error invariant of the retry loop, by induction on
the remaining retry budget. -/
lemma cutClipGo_status (attempts : ℕ → RunOutcome) :
    ∀ n idx rc, MAX_RETRIES + 1 - rc ≤ n →
      ((cutClipGo attempts idx rc).retval = true ↔
        (cutClipGo attempts idx rc).status = "completed") ∧
      ((cutClipGo attempts idx rc).retval = false →
        (cutClipGo attempts idx rc).status = "failed" ∧
        (cutClipGo attempts idx rc).error ≠ none) := by
  intro n
  induction n with
  | zero =>
    intro idx rc hrc
    rw [cutClipGo, if_neg (by omega : ¬ rc ≤ MAX_RETRIES)]
    simp
  | succ n ih =>
    intro idx rc hrc
    rw [cutClipGo]
    by_cases hb : rc ≤ MAX_RETRIES
    · rw [if_pos hb]
      cases hA : attempts idx
      · simp
      · simp
      · by_cases hb2 : rc + 1 ≤ MAX_RETRIES
        · rw [if_pos hb2]
          exact ih (idx + 1) (rc + 1) (by omega)
        · rw [if_neg hb2]
          simp
      · simp
    · rw [if_neg hb]
      simp

/-- C8: the boolean cut_clip returns is true exactly when the task ends in
status completed; every false return leaves status failed and a non-None
error description. -/
theorem cut_clip_status_iff (hasVideoInfo : Bool)
    (attempts : ℕ → RunOutcome) :
    ((cut_clip hasVideoInfo attempts).retval = true ↔
      (cut_clip hasVideoInfo attempts).status = "completed") ∧
    ((cut_clip hasVideoInfo attempts).retval = false →
      (cut_clip hasVideoInfo attempts).status = "failed" ∧
      (cut_clip hasVideoInfo attempts).error ≠ none) := by
  cases hasVideoInfo
  · simp [cut_clip]
  · rw [cut_clip, if_pos rfl]
    exact cutClipGo_status attempts (MAX_RETRIES + 1) 0 0 (by omega)

/-- C8 witness: a user-stopped first attempt returns false with status
failed and a non-None error. -/
theorem cut_clip_status_iff_witness :
    (cut_clip true (fun _ => RunOutcome.stopped)).status = "failed" ∧
    (cut_clip true (fun _ => RunOutcome.stopped)).error ≠ none :=
  (cut_clip_status_iff true (fun _ => RunOutcome.stopped)).2
    (by simp [cut_clip, cutClipGo, MAX_RETRIES])

/-- With a nonzero target duration, the values the reader reports over a
line sequence are exactly the decoded elapsed values mapped through the
clamped progress formula, appended to what was reported before. -/
lemma runLines_reported (d : ℚ) (hd : d ≠ 0) :
    ∀ (ls : List PyStr) (st : ProgressState),
      (runLines d st ls).reported =
        st.reported ++ (decodedValues ls).map (progressOf d) := by
  intro ls
  induction ls with
  | nil => intro st; simp [runLines, decodedValues]
  | cons l ls ih =>
    intro st
    by_cases hs : pyStartsWith l OUT_TIME_MS
    · cases hsp : pySplit '=' l with
      | nil => simp [runLines, decodedValues, processLine, hs, hsp]
      | cons a tail =>
        cases tail with
        | nil => simp [runLines, decodedValues, processLine, hs, hsp]
        | cons payload tail2 =>
          cases hdec : pyDecodeInt payload with
          | none =>
            simp [runLines, decodedValues, processLine, hs, hsp, hdec, ih st]
          | some v =>
            simp [runLines, decodedValues, processLine, hs, hsp, hdec, hd,
              ih, progressOf]
    · simp [runLines, decodedValues, processLine, hs, ih st]

/-- The clamped progress formula is monotone in the elapsed value for a
positive duration. -/
lemma progressOf_mono {d : ℚ} (hd : 0 < d) {v w : ℤ} (h : v ≤ w) :
    progressOf d v ≤ progressOf d w := by
  rw [progressOf, progressOf]
  refine min_le_min (le_refl 1) ?_
  have hc : (v : ℚ) ≤ (w : ℚ) := by exact_mod_cast h
  gcongr

/-- C2 (amended): within one encoder attempt with positive target duration,
the values written to task.progress and reported to the callback are
exactly the decoded elapsed-output-time values mapped through
min(1, v / 1e6 / duration), so no reported value ever exceeds 1.0; when all
decoded elapsed values are nonnegative, every reported value lies in
[0, 1]; and the reported sequence is nondecreasing whenever the decoded
elapsed values arrive in nondecreasing order.  (The claim as stated is
false: a line with a negative decodable elapsed value makes the code write
and report a negative progress value, and the sequence can decrease.) -/
theorem progress_monotone_clamp (d tp0 : ℚ) (ls : List PyStr)
    (hd : 0 < d) :
    (runLines d (initProgressState tp0) ls).reported =
      (decodedValues ls).map (progressOf d) ∧
    (∀ r ∈ (runLines d (initProgressState tp0) ls).reported, r ≤ 1) ∧
    ((∀ v ∈ decodedValues ls, (0 : ℤ) ≤ v) →
      ∀ r ∈ (runLines d (initProgressState tp0) ls).reported,
        0 ≤ r ∧ r ≤ 1) ∧
    (List.Chain' (· ≤ ·) (decodedValues ls) →
      List.Chain' (· ≤ ·) (runLines d (initProgressState tp0) ls).reported) := by
  have hrep : (runLines d (initProgressState tp0) ls).reported =
      (decodedValues ls).map (progressOf d) := by
    rw [runLines_reported d (ne_of_gt hd) ls (initProgressState tp0)]
    simp [initProgressState]
  refine ⟨hrep, ?_, ?_, ?_⟩
  · intro r hr
    rw [hrep] at hr
    obtain ⟨v, -, hv⟩ := List.mem_map.mp hr
    rw [← hv, progressOf]
    exact min_le_left 1 _
  · intro hnn r hr
    rw [hrep] at hr
    obtain ⟨v, hvmem, hv⟩ := List.mem_map.mp hr
    constructor
    · rw [← hv, progressOf]
      refine le_min (by norm_num) ?_
      have h0 : (0 : ℚ) ≤ (v : ℚ) := by exact_mod_cast hnn v hvmem
      positivity
    · rw [← hv, progressOf]
      exact min_le_left 1 _
  · intro hch
    rw [hrep, List.chain'_map]
    exact hch.imp (fun {a b} hvw => progressOf_mono hd hvw)

/-- C2 witness: for duration 1 s and the single line
out_time_ms=500000, the reported sequence is exactly the mapped decoded
value (1/2). -/
theorem progress_monotone_clamp_witness :
    (runLines 1 (initProgressState 0)
      [OUT_TIME_MS ++ ['=', '5', '0', '0', '0', '0', '0']]).reported =
      (decodedValues [OUT_TIME_MS ++ ['=', '5', '0', '0', '0', '0', '0']]).map
        (progressOf 1) :=
  (progress_monotone_clamp 1 0
    [OUT_TIME_MS ++ ['=', '5', '0', '0', '0', '0', '0']] (by norm_num)).1

/-- C2 counterexample: with duration 1 s, the lines out_time_ms=500000 and
out_time_ms=-1000000 make the reader report 1/2 and then -1: the second
reported value is negative (outside [0, 1]) and the sequence decreases. -/
theorem progress_negative_counterexample :
    (runLines 1 (initProgressState 0)
      [OUT_TIME_MS ++ ['=', '5', '0', '0', '0', '0', '0'],
       OUT_TIME_MS ++ ['=', '-', '1', '0', '0', '0', '0', '0', '0']]).reported =
      [1 / 2, -1] ∧ ((-1 : ℚ) < 0 ∧ (-1 : ℚ) < 1 / 2) := by
  constructor
  · rw [runLines_reported 1 (by norm_num)]
    have hdec : decodedValues
        [OUT_TIME_MS ++ ['=', '5', '0', '0', '0', '0', '0'],
         OUT_TIME_MS ++ ['=', '-', '1', '0', '0', '0', '0', '0', '0']] =
        [500000, -1000000] := by decide
    rw [hdec]
    norm_num [initProgressState, progressOf]
  · norm_num

/-- C10: an out_time_ms line whose payload after the first '=' does not
decode as an integer (ValueError), and any out_time_ms line with a payload
when the target duration is zero (ZeroDivisionError), are swallowed by the
inner exception handler: the reader raises nothing and the progress state
(task.progress, last_progress and the reported values) is unchanged. -/
theorem progress_reader_safe (d : ℚ) (st : ProgressState) (line : PyStr)
    (pre payload : PyStr) (rest : List PyStr)
    (hstart : pyStartsWith line OUT_TIME_MS = true)
    (hsplit : pySplit '=' line = pre :: payload :: rest)
    (hbad : pyDecodeInt payload = none ∨ d = 0) :
    processLine d st line = some st := by
  rw [processLine, if_pos hstart, hsplit]
  dsimp only
  rcases hbad with hb | hb
  · rw [hb]
  · cases hdec : pyDecodeInt payload with
    | none => rfl
    | some v =>
      dsimp only
      rw [if_pos hb]

/-- C10 witness: the undecodable line out_time_ms=abc with duration 1
leaves the initial state untouched. -/
theorem progress_reader_safe_witness :
    processLine 1 (initProgressState 0) (OUT_TIME_MS ++ ['=', 'a', 'b', 'c']) =
      some (initProgressState 0) :=
  progress_reader_safe 1 (initProgressState 0)
    (OUT_TIME_MS ++ ['=', 'a', 'b', 'c']) OUT_TIME_MS ['a', 'b', 'c'] []
    (by decide) (by decide) (Or.inl (by decide))
